import Mathlib

/-!
Verification of the uha stream enrichment and caching pipeline.

The definitions below are a shallow embedding of the Python sources of the
uha backend (projects/uha-backend/src/uha/backend): the pure text-analysis
functions of api/llm.py and api/youtube_analysis.py, the SQLite-backed
stream cache of services/cache_service.py (modelled as an in-memory table,
one row per record, with wall-clock time in seconds passed explicitly), and
the per-entry / batched enrichment orchestration of api/llm.py
(get_stream_details and the get_paginated_streams detail loop, with the
external network calls modelled as oracles).

Strings are handled through their underlying character lists.  Python float
arithmetic in the engagement score is modelled over the rationals, and
Python re searches are modelled by explicit left-to-right scanning functions
that implement the exact patterns appearing in the source.
-/

namespace Uha

/-! ## Basic character and string utilities -/

/-- ASCII lower-casing of a single character, as Python str.lower acts on the
characters relevant to this code base (Korean syllables are unaffected). -/
def pyToLower (c : Char) : Char :=
  if 'A' ≤ c ∧ c ≤ 'Z' then Char.ofNat (c.toNat + 32) else c

/-- Python whitespace for str.strip (ASCII subset). -/
def isPySpace (c : Char) : Bool :=
  c == ' ' || c == '\t' || c == '\n' || c == '\r'

/-- Drop from the end of the list while the predicate holds. -/
def dropRightWhile (p : Char → Bool) (l : List Char) : List Char :=
  (l.reverse.dropWhile p).reverse

/-- Python str.strip: remove leading and trailing whitespace. -/
def pyStrip (l : List Char) : List Char :=
  dropRightWhile isPySpace (l.dropWhile isPySpace)

/-- Does the second list start with the first one?  (Explicit recursion so
that the equations reduce definitionally on literal heads.) -/
def matchesAt : List Char → List Char → Bool
  | [], _ => true
  | _ :: _, [] => false
  | p :: ps, c :: cs => p == c && matchesAt ps cs

/-- Python substring containment (the `in` operator on str). -/
def containsSub (needle : List Char) : List Char → Bool
  | [] => needle.isEmpty
  | c :: rest => matchesAt needle (c :: rest) || containsSub needle rest

/-- Join a list of strings with single spaces, as str.join. -/
def joinSpace (l : List String) : String :=
  String.intercalate " " l

/-! ## Identifier Extractor (api/llm.py, extract_video_id_from_url)

The Python function scans the URL with three regexes in order:
  1. (?:youtube\.com\/watch\?v=|youtu\.be\/)([a-zA-Z0-9_-]{11})
  2. youtube\.com\/embed\/([a-zA-Z0-9_-]{11})
  3. youtube\.com\/v\/([a-zA-Z0-9_-]{11})
Each regex is a literal alternative followed by exactly 11 identifier
characters; re.search finds the leftmost position where an alternative
matches and 11 identifier characters follow. -/

/-- The character class [a-zA-Z0-9_-] of the video-id capture group. -/
def isIdChar (c : Char) : Bool :=
  ('a' ≤ c && c ≤ 'z') || ('A' ≤ c && c ≤ 'Z') || ('0' ≤ c && c ≤ '9')
    || c == '_' || c == '-'

/-- Try to match one literal alternative followed by 11 id characters at the
head of `l`; return the captured 11 characters. -/
def matchPrefixId (pre l : List Char) : Option (List Char) :=
  if matchesAt pre l then
    let rest := l.drop pre.length
    if 11 ≤ rest.length ∧ (rest.take 11).all isIdChar then some (rest.take 11)
    else none
  else none

/-- Try each alternative of a pattern, in order, at the current position. -/
def tryAlts (pres : List (List Char)) (l : List Char) : Option (List Char) :=
  match pres with
  | [] => none
  | p :: ps =>
    match matchPrefixId p l with
    | some v => some v
    | none => tryAlts ps l

/-- re.search: scan positions left to right, return the first capture. -/
def searchCapture (pres : List (List Char)) : List Char → Option (List Char)
  | [] => tryAlts pres []
  | c :: rest =>
    match tryAlts pres (c :: rest) with
    | some v => some v
    | none => searchCapture pres rest

def watchPre : List Char := "youtube.com/watch?v=".data

def shortPre : List Char := "youtu.be/".data

def embedPre : List Char := "youtube.com/embed/".data

def vPre : List Char := "youtube.com/v/".data

/-- api/llm.py extract_video_id_from_url: first matching pattern wins,
no match yields the empty string (and the function never raises). -/
def extract_video_id_from_url (url : String) : String :=
  match searchCapture [watchPre, shortPre] url.data with
  | some v => String.mk v
  | none =>
    match searchCapture [embedPre] url.data with
    | some v => String.mk v
    | none =>
      match searchCapture [vPre] url.data with
      | some v => String.mk v
      | none => ""

/-! ## Duration parsing (api/llm.py, parse_duration_to_minutes)

re.match(r"PT(?:(\d+)H)?(?:(\d+)M)?(?:(\d+)S)?", duration): anchored at the
start, literal "PT", then three optional groups.  A group (\d+)X matches
exactly when the maximal digit run at the current position is non-empty and
is followed by the literal marker X (backtracking into the digit run cannot
help because the character after a shorter run is still a digit).  \d is
modelled as the ASCII digits 0-9, which is what ISO-8601 durations use
(Python's re would additionally accept other Unicode decimal digits). -/

def digitsToNat (l : List Char) : Nat :=
  l.foldl (fun a c => a * 10 + (c.toNat - 48)) 0

/-- Match one optional (\d+)X group; on failure consume nothing. -/
def parseComponent (marker : Char) (l : List Char) : Nat × List Char :=
  let ds := l.takeWhile Char.isDigit
  match l.drop ds.length with
  | c :: rest => if ds ≠ [] ∧ c = marker then (digitsToNat ds, rest) else (0, l)
  | [] => (0, l)

/-- api/llm.py parse_duration_to_minutes: hours*60 + minutes + seconds//60;
empty or non-matching input yields 0. -/
def parse_duration_to_minutes (duration : String) : Nat :=
  match duration.data with
  | 'P' :: 'T' :: rest =>
    let h := parseComponent 'H' rest
    let m := parseComponent 'M' h.2
    let s := parseComponent 'S' m.2
    h.1 * 60 + m.1 + s.1 / 60
  | _ => 0

/-! ## Engagement score (api/llm.py, calculate_engagement_score)

Python float arithmetic is modelled over ℚ; round(x, 2) is modelled as
round(x*100)/100.  (Mathlib's round breaks exact half-cent ties upward while
Python's float round is half-even; no property asserted below depends on tie
behaviour, and exact ties essentially never arise from float division.) -/

def round2 (q : ℚ) : ℚ :=
  ((round (q * 100) : ℤ) : ℚ) / 100

def calculate_engagement_score (view_count like_count comment_count : ℤ)
    (duration_minutes : ℤ) : ℚ :=
  if view_count = 0 then 0
  else
    let like_rate : ℚ := (like_count : ℚ) / (view_count : ℚ) * 100
    let comment_rate : ℚ := (comment_count : ℚ) / (view_count : ℚ) * 100
    let duration_factor : ℚ := min ((duration_minutes : ℚ) / 60) 3
    let score : ℚ := (like_rate * 0.6 + comment_rate * 0.4) * (1 + duration_factor * 0.1)
    round2 (min score 10)

/-! ## Keyword extraction (api/youtube_analysis.py, extract_keywords_from_text)

re.findall(r"[가-힣a-zA-Z0-9]{2,}", text.lower()) returns the maximal runs of
token characters of length at least 2, in order; Counter iterates them in
first-occurrence order and most_common sorts stably by descending count.
The stable sort by count is modelled as a total-order sort on the pair
(count descending, first-occurrence position ascending), which coincides
with stable sorting because first-occurrence positions are distinct. -/

def isTokenChar (c : Char) : Bool :=
  ('가' ≤ c && c ≤ '힣') || ('a' ≤ c && c ≤ 'z') || ('A' ≤ c && c ≤ 'Z')
    || ('0' ≤ c && c ≤ '9')

/-- Accumulate the current run of token characters and emit runs of
length ≥ 2, exactly as the {2,} regex findall does. -/
def tokenizeAux : List Char → List Char → List (List Char)
  | run, [] => if 2 ≤ run.length then [run] else []
  | run, c :: rest =>
    if isTokenChar c then tokenizeAux (run ++ [c]) rest
    else if 2 ≤ run.length then run :: tokenizeAux [] rest
    else tokenizeAux [] rest

def tokenize (l : List Char) : List (List Char) :=
  tokenizeAux [] l

def stop_words : List String :=
  ["그래서", "그런데", "하지만", "그리고", "그러나", "그냥", "정말", "진짜", "완전",
   "the", "and", "or", "but", "in", "on", "at", "to", "for", "of", "with", "by"]

/-- The filtered token stream: lower-cased text, runs of length ≥ 2, stop
words removed (the additional len > 1 test of the source is subsumed). -/
def filteredTokens (text : String) : List String :=
  ((tokenize (text.data.map pyToLower)).map String.mk).filter
    (fun w => !(stop_words.contains w) && decide (1 < w.data.length))

/-- The keys of a Counter built from the list: first-occurrence order, no
duplicates.  `seen` holds the keys already emitted. -/
def counterKeysAux : List String → List String → List String
  | [], _ => []
  | w :: ws, seen =>
    if seen.contains w then counterKeysAux ws seen
    else w :: counterKeysAux ws (seen ++ [w])

def counterKeys (l : List String) : List String :=
  counterKeysAux l []

/-- Sort key for most_common: higher count first, earlier first occurrence
first on ties. -/
def kwLE (a b : String × ℕ × ℕ) : Prop :=
  b.2.1 < a.2.1 ∨ (a.2.1 = b.2.1 ∧ a.2.2 ≤ b.2.2)

instance : DecidableRel kwLE := fun a b => by
  unfold kwLE; infer_instance

instance : IsTotal (String × ℕ × ℕ) kwLE :=
  ⟨by intro a b; unfold kwLE; omega⟩

instance : IsTrans (String × ℕ × ℕ) kwLE :=
  ⟨by intro a b c; unfold kwLE; omega⟩

/-- api/youtube_analysis.py extract_keywords_from_text. -/
def extract_keywords_from_text (text : String) (max_keywords : ℕ) : List String :=
  let filtered := filteredTokens text
  let pairs := (counterKeys filtered).map
    (fun w => (w, filtered.count w, filtered.indexOf w))
  ((pairs.insertionSort kwLE).take max_keywords).map (fun p => p.1)

/-! ## Sentiment, categories, highlights (api/llm.py, api/youtube_analysis.py) -/

def positive_words : List String :=
  ["좋", "최고", "대박", "멋지", "훌륭", "완벽", "사랑", "감사", "재밌", "웃기"]

def negative_words : List String :=
  ["싫", "별로", "최악", "나쁘", "화나", "짜증", "실망", "지루", "아쉽"]

def countHits (ws : List String) (text : List Char) : Nat :=
  (ws.filter (fun w => containsSub w.data text)).length

/-- api/youtube_analysis.py analyze_video_sentiment (rule based).  The
Python comparison count > other * 1.5 on small integer counts is exact in
float arithmetic and equals 2 * count > 3 * other. -/
def analyze_video_sentiment (title description : String) (comments : List String) : String :=
  let all_text := (title ++ " " ++ description ++ " " ++ joinSpace (comments.take 20)).data
  let positive_count := countHits positive_words all_text
  let negative_count := countHits negative_words all_text
  if 3 * negative_count < 2 * positive_count then "긍정적인 반응이 많은 스트림"
  else if 3 * positive_count < 2 * negative_count then "부정적인 반응이 있는 스트림"
  else "중립적인 반응의 스트림"

def stream_categories : List (String × List String) :=
  [("🎮 게임", ["게임", "game", "플레이", "play", "rpg", "fps", "moba"]),
   ("🎵 음악", ["음악", "music", "노래", "song", "sing", "cover"]),
   ("🗣️ 토크", ["토크", "talk", "채팅", "chat", "소통", "qa", "질문"]),
   ("🎨 창작", ["그림", "draw", "art", "창작", "만들기", "diy"]),
   ("📚 교육", ["강의", "교육", "tutorial", "배우기", "learn", "study"]),
   ("🍳 요리", ["요리", "cook", "먹방", "food", "recipe"]),
   ("🏃 운동", ["운동", "workout", "fitness", "헬스", "스포츠"]),
   ("🎬 리뷰", ["리뷰", "review", "후기", "평가", "반응"])]

/-- api/llm.py categorize_stream: first table entry with a substring hit. -/
def categorize_stream (title : String) (tags keywords : List String) : String :=
  let all_text :=
    (title ++ " " ++ joinSpace tags ++ " " ++ joinSpace keywords).data.map pyToLower
  match stream_categories.find?
      (fun cat => cat.2.any (fun kw => containsSub kw.data all_text)) with
  | some cat => cat.1
  | none => "📺 일반"

def highlight_keywords : List String :=
  ["대박", "최고", "웃겨", "재밌", "감동", "놀라", "신기", "멋지", "완벽", "훌륭",
   "funny", "amazing", "great", "awesome", "perfect", "incredible", "wow"]

/-- The comment-scanning loop of extract_highlights_from_comments: collect
up to 3 distinct cleaned comments containing a highlight keyword. -/
def goHighlights : List String → List String → List String
  | [], acc => acc
  | c :: rest, acc =>
    if highlight_keywords.any (fun k => containsSub k.data (c.data.map pyToLower)) then
      let clean := String.mk ((pyStrip c.data).take 50)
      if clean ≠ "" ∧ ¬ acc.contains clean then
        if 3 ≤ (acc ++ [clean]).length then acc ++ [clean]
        else goHighlights rest (acc ++ [clean])
      else goHighlights rest acc
    else goHighlights rest acc

/-- Title-keyword fallback of extract_highlights_from_comments. -/
def fallbackHighlights (title : String) : List String :=
  let lowered := title.data.map pyToLower
  let h1 : List String :=
    if containsSub "게임".data title.data ∨ containsSub "game".data lowered then
      ["🎮 게임 스트리밍"]
    else []
  let h2 : List String :=
    if containsSub "채팅".data title.data ∨ containsSub "chat".data lowered then
      h1 ++ ["💬 시청자와 소통"]
    else h1
  if h2 = [] then ["📺 라이브 방송"] else h2

/-- api/llm.py extract_highlights_from_comments.  Note the early return []
when the comments list is empty. -/
def extract_highlights_from_comments (comments : List String) (title : String) :
    List String :=
  if comments = [] then []
  else
    let highlights := goHighlights (comments.take 20) []
    if highlights = [] then fallbackHighlights title else highlights

/-! ## Data model (models/stream_models.py, database/models.py) -/

structure LiveStreamEntry where
  date : String
  url : String
deriving DecidableEq, Repr

structure StreamWithDetails where
  date : String
  url : String
  video_id : String
  title : Option String := none
  thumbnail : Option String := none
  view_count : Option ℤ := none
  like_count : Option ℤ := none
  comment_count : Option ℤ := none
  duration : Option String := none
  tags : Option (List String) := none
  keywords : Option (List String) := none
  ai_summary : Option String := none
  highlights : Option (List String) := none
  sentiment : Option String := none
  engagement_score : Option ℚ := none
  category : Option String := none
deriving DecidableEq, Repr

/-- One row of the stream_cache table.  The JSON text columns (tags,
keywords, highlights) are modelled by their decoded lists; cache_stream
always writes json.dumps(x or []), and json.loads inverts json.dumps on
lists of strings, so the stored string is never empty and decodes to the
stored list.  Timestamps are wall-clock seconds. -/
structure StreamCacheRow where
  video_id : String
  url : String
  date : String
  title : Option String
  thumbnail : Option String
  view_count : Option ℤ
  like_count : Option ℤ
  comment_count : Option ℤ
  duration : Option String
  ai_summary : Option String
  highlights : List String
  sentiment : Option String
  engagement_score : Option ℚ
  category : Option String
  tags : List String
  keywords : List String
  created_at : ℤ
  updated_at : ℤ
  last_accessed : ℤ
  cache_version : ℤ
deriving DecidableEq, Repr

abbrev CacheState := List StreamCacheRow

/-- cache_duration_hours = 24, in seconds. -/
def freshnessWindow : ℤ := 24 * 3600

/-- _cache_to_stream_details: the JSON list columns decode to some list
(the stored string "..." is non-empty, hence truthy, for rows written by
cache_stream). -/
def cacheToStreamDetails (r : StreamCacheRow) : StreamWithDetails :=
  { date := r.date
    url := r.url
    video_id := r.video_id
    title := r.title
    thumbnail := r.thumbnail
    view_count := r.view_count
    like_count := r.like_count
    comment_count := r.comment_count
    duration := r.duration
    tags := some r.tags
    keywords := some r.keywords
    ai_summary := r.ai_summary
    highlights := some r.highlights
    sentiment := r.sentiment
    engagement_score := r.engagement_score
    category := r.category }

/-- StreamCacheService.get_cached_stream: look the row up by video_id,
treat rows older than the freshness window (by updated_at) as a miss, and
on a hit set last_accessed to now.  Returns the result and the new table. -/
def get_cached_stream (s : CacheState) (video_id : String) (now : ℤ) :
    Option StreamWithDetails × CacheState :=
  match s.find? (fun r => r.video_id == video_id) with
  | none => (none, s)
  | some row =>
    if freshnessWindow < now - row.updated_at then (none, s)
    else
      (some (cacheToStreamDetails row),
       s.map (fun r => if r.video_id == video_id then { r with last_accessed := now } else r))

/-- The row created by cache_stream for a new video_id (column defaults:
created_at/updated_at/last_accessed = utcnow, cache_version = 1). -/
def mkCacheRow (st : StreamWithDetails) (now : ℤ) : StreamCacheRow :=
  { video_id := st.video_id
    url := st.url
    date := st.date
    title := st.title
    thumbnail := st.thumbnail
    view_count := st.view_count
    like_count := st.like_count
    comment_count := st.comment_count
    duration := st.duration
    ai_summary := st.ai_summary
    highlights := st.highlights.getD []
    sentiment := st.sentiment
    engagement_score := st.engagement_score
    category := st.category
    tags := st.tags.getD []
    keywords := st.keywords.getD []
    created_at := now
    updated_at := now
    last_accessed := now
    cache_version := 1 }

/-- The UPDATE branch of cache_stream: overwrites the listed columns and
refreshes updated_at/last_accessed; video_id, created_at and cache_version
are untouched. -/
def updateRow (r : StreamCacheRow) (st : StreamWithDetails) (now : ℤ) : StreamCacheRow :=
  { r with
    url := st.url
    date := st.date
    title := st.title
    thumbnail := st.thumbnail
    view_count := st.view_count
    like_count := st.like_count
    comment_count := st.comment_count
    duration := st.duration
    ai_summary := st.ai_summary
    highlights := st.highlights.getD []
    sentiment := st.sentiment
    engagement_score := st.engagement_score
    category := st.category
    tags := st.tags.getD []
    keywords := st.keywords.getD []
    updated_at := now
    last_accessed := now }

/-- StreamCacheService.cache_stream: upsert keyed by video_id. -/
def cache_stream (s : CacheState) (st : StreamWithDetails) (now : ℤ) : CacheState :=
  if s.any (fun r => r.video_id == st.video_id) then
    s.map (fun r => if r.video_id == st.video_id then updateRow r st now else r)
  else
    s ++ [mkCacheRow st now]

/-- The record equal to st after one put/get round trip: absent list fields
come back as present-but-empty (json.dumps(None or []) stores "[]", which
is truthy and decodes to []). -/
def normalizeCached (st : StreamWithDetails) : StreamWithDetails :=
  { st with
    tags := some (st.tags.getD [])
    keywords := some (st.keywords.getD [])
    highlights := some (st.highlights.getD []) }

/-- A row with its mutable timestamps erased, for stating what an operation
may change. -/
def eraseTimestamps (r : StreamCacheRow) : StreamCacheRow :=
  { r with updated_at := 0, last_accessed := 0 }

/-- A row with only last_accessed erased. -/
def eraseLastAccessed (r : StreamCacheRow) : StreamCacheRow :=
  { r with last_accessed := 0 }

/-- Do the data columns of the row hold exactly the content cache_stream
writes for this record? -/
def rowMatchesStream (r : StreamCacheRow) (st : StreamWithDetails) : Prop :=
  r.url = st.url ∧ r.date = st.date ∧ r.title = st.title ∧
  r.thumbnail = st.thumbnail ∧ r.view_count = st.view_count ∧
  r.like_count = st.like_count ∧ r.comment_count = st.comment_count ∧
  r.duration = st.duration ∧ r.ai_summary = st.ai_summary ∧
  r.highlights = st.highlights.getD [] ∧ r.sentiment = st.sentiment ∧
  r.engagement_score = st.engagement_score ∧ r.category = st.category ∧
  r.tags = st.tags.getD [] ∧ r.keywords = st.keywords.getD []

instance (r : StreamCacheRow) (st : StreamWithDetails) :
    Decidable (rowMatchesStream r st) := by
  unfold rowMatchesStream; infer_instance

/-- The table never holds two rows for the same video_id (video_id is a
UNIQUE column). -/
def keyUnique (s : CacheState) : Prop :=
  s.Pairwise (fun a b => a.video_id ≠ b.video_id)

/-- Is the lookup for this video_id a fresh hit at time t?  (Captures the
freshness test of get_cached_stream without its side effect.) -/
def lookupFresh (s : CacheState) (video_id : String) (t : ℤ) : Bool :=
  match s.find? (fun r => r.video_id == video_id) with
  | none => false
  | some row => decide (t - row.updated_at ≤ freshnessWindow)

/-! ## Enrichment orchestration (api/llm.py, get_stream_details and the
batched detail loop of get_paginated_streams)

The external effects are oracles: fetch bundles the YouTube video lookup
together with the comment-text extraction loop (any exception there is
caught by the outer try of get_stream_details, which then caches and
returns the bare record); summarize is the LLM call of the inner analysis
block (on failure the source fills in the fixed default analysis values);
get_video_comments itself never raises, it degrades to [] inside fetch.
generate_stream_summary catches its own exceptions, so the dummy-data
branch carries a plain summary string.  Cache I/O is modelled as always
succeeding, and the concurrent window of asyncio.gather is serialized
left to right (gather collects results positionally, so the output order
does not depend on the interleaving). -/

structure FetchedVideo where
  title : String
  description : String
  thumbnailUrl : Option String
  viewCount : ℤ
  likeCount : ℤ
  commentCount : ℤ
  duration : String
  tags : List String
deriving DecidableEq, Repr

structure ExternalWorld where
  fetch : String → Except String (FetchedVideo × List String)
  summarize : String → Except String String
  dummySummary : String

/-- api/llm.py get_stream_details.  Returns the record, the cache table
afterwards, and whether an external metadata fetch was attempted. -/
def get_stream_details (w : ExternalWorld) (youtube_api_key : String)
    (cache : CacheState) (now : ℤ) (entry : LiveStreamEntry) :
    StreamWithDetails × CacheState × Bool :=
  let video_id := extract_video_id_from_url entry.url
  if video_id = "" then
    ({ date := entry.date, url := entry.url, video_id := video_id }, cache, false)
  else
    match get_cached_stream cache video_id now with
    | (some cached, cache') => (cached, cache', false)
    | (none, cache') =>
      let base : StreamWithDetails :=
        { date := entry.date, url := entry.url, video_id := video_id }
      if youtube_api_key = "" then
        let st : StreamWithDetails :=
          { base with
            title := some ("테스트 라이브 스트림 - " ++ entry.date)
            thumbnail := some ("https://img.youtube.com/vi/" ++ video_id ++ "/maxresdefault.jpg")
            ai_summary := some w.dummySummary
            highlights := some ["🎮 게임 스트리밍", "💬 시청자와 소통"]
            sentiment := some "긍정적인 반응이 많은 스트림"
            engagement_score := some 7.5
            category := some "🎮 게임"
            view_count := some 1500
            like_count := some 120
            comment_count := some 45
            duration := some "PT1H30M" }
        (st, cache_stream cache' st now, false)
      else
        match w.fetch video_id with
        | .error _ => (base, cache_stream cache' base now, true)
        | .ok (vd, comment_texts) =>
          let keywords := extract_keywords_from_text (vd.title ++ " " ++ vd.description) 5
          let st1 : StreamWithDetails :=
            { base with
              title := some vd.title
              thumbnail := vd.thumbnailUrl
              view_count := some vd.viewCount
              like_count := some vd.likeCount
              comment_count := some vd.commentCount
              duration := some vd.duration
              tags := some (vd.tags.take 5)
              keywords := some keywords }
          let st2 : StreamWithDetails :=
            match w.summarize video_id with
            | .ok summary =>
              { st1 with
                ai_summary := some summary
                highlights := some (extract_highlights_from_comments comment_texts vd.title)
                sentiment := some (analyze_video_sentiment vd.title vd.description comment_texts)
                engagement_score := some (calculate_engagement_score vd.viewCount vd.likeCount
                  vd.commentCount (parse_duration_to_minutes vd.duration : ℤ))
                category := some (categorize_stream vd.title (vd.tags.take 5) keywords) }
            | .error _ =>
              { st1 with
                ai_summary := some (vd.title ++ "에서 진행된 라이브 스트리밍입니다.")
                highlights := some ["📺 라이브 방송"]
                sentiment := some "중립적인 반응의 스트림"
                engagement_score := some 0
                category := some "📺 일반" }
          (st2, cache_stream cache' st2 now, true)

/-- Sequential per-entry processing: one task per entry, results collected
positionally (the serialization of one gather window). -/
def processSeq (w : ExternalWorld) (k : String) :
    List LiveStreamEntry → CacheState → ℤ → List StreamWithDetails × CacheState
  | [], c, _ => ([], c)
  | e :: es, c, now =>
    let r := get_stream_details w k c now e
    let rest := processSeq w k es r.2.1 now
    (r.1 :: rest.1, rest.2)

/-- The batched detail loop of get_paginated_streams: windows of 5 entries,
window n+1 starts after window n; gather(..., return_exceptions=True)
results are appended in order.  In this model no task result is an
exception (the failures named by the spec are caught inside
get_stream_details), so the isinstance filter of the source keeps every
result. -/
def processInWindows (w : ExternalWorld) (k : String) :
    List LiveStreamEntry → CacheState → ℤ → List StreamWithDetails × CacheState
  | e1 :: e2 :: e3 :: e4 :: e5 :: rest, c, now =>
    let batch := processSeq w k [e1, e2, e3, e4, e5] c now
    let tail := processInWindows w k rest batch.2 now
    (batch.1 ++ tail.1, tail.2)
  | l, c, now => processSeq w k l c now

/-! ## Helper lemmas -/

theorem find?_map_pres {α : Type} (s : List α) (p : α → Bool) (f : α → α)
    (hf : ∀ r, p (f r) = p r) : (s.map f).find? p = (s.find? p).map f := by
  induction s with
  | nil => rfl
  | cons c cs ih =>
    simp only [List.map_cons, List.find?_cons]
    by_cases h : p c
    · simp [hf c, h]
    · simp only [Bool.not_eq_true] at h
      simp [hf c, h, ih]

theorem find?_append_none {α : Type} (s t : List α) (p : α → Bool)
    (h : s.find? p = none) : (s ++ t).find? p = t.find? p := by
  induction s with
  | nil => rfl
  | cons c cs ih =>
    simp only [List.find?_cons] at h ⊢
    cases hp : p c with
    | true => rw [hp] at h; exact absurd h (by simp)
    | false =>
      rw [hp] at h
      simp only [List.cons_append, List.find?_cons, hp]
      exact ih h

theorem any_map_pres {α : Type} (s : List α) (p : α → Bool) (f : α → α)
    (hf : ∀ r, p (f r) = p r) : (s.map f).any p = s.any p := by
  induction s with
  | nil => rfl
  | cons c cs ih => simp [hf c, ih]

theorem map_eq_self_of_not_pred {α : Type} (s : List α) (p : α → Bool) (g : α → α)
    (h : ∀ r ∈ s, p r = false) :
    s.map (fun r => if p r then g r else r) = s := by
  induction s with
  | nil => rfl
  | cons c cs ih =>
    have hc : p c = false := h c (List.mem_cons_self c cs)
    rw [List.map_cons, if_neg (by simp [hc])]
    exact congrArg (List.cons c) (ih fun r hr => h r (List.mem_cons_of_mem c hr))

/-- The conditional update of cache_stream and get_cached_stream preserves
video_id, hence the lookup predicate. -/
theorem upd_pres_pred (vid vid' : String) (g : StreamCacheRow → StreamCacheRow)
    (hg : ∀ r, (g r).video_id = r.video_id) (r : StreamCacheRow) :
    ((if r.video_id == vid then g r else r).video_id == vid') = (r.video_id == vid') := by
  by_cases h : r.video_id == vid
  · simp [h, hg]
  · simp [h]

/-! ## C4: engagement score -/

theorem round2_bounds (q : ℚ) (h0 : 0 ≤ q) (h10 : q ≤ 10) :
    0 ≤ round2 q ∧ round2 q ≤ 10 := by
  have hlow : (0 : ℤ) ≤ round (q * 100) := by
    rw [round_eq]
    apply Int.le_floor.2
    push_cast
    linarith
  have hhigh : round (q * 100) ≤ 1000 := by
    rw [round_eq]
    have : ⌊q * 100 + 1 / 2⌋ < 1001 := by
      apply Int.floor_lt.2
      push_cast
      linarith
    omega
  constructor
  · unfold round2
    apply div_nonneg _ (by norm_num)
    exact_mod_cast hlow
  · unfold round2
    rw [div_le_iff₀ (by norm_num)]
    have : ((round (q * 100) : ℤ) : ℚ) ≤ 1000 := by exact_mod_cast hhigh
    linarith

/-- Claim C4: the engagement score is exactly 0 when view_count = 0, for all
other arguments; for non-negative inputs it lies in [0, 10]; and for
non-zero view counts it equals the spec formula clamped at 10 and rounded
to 2 decimal places. -/
theorem C4_engagement_score (view_count like_count comment_count duration_minutes : ℤ) :
    calculate_engagement_score 0 like_count comment_count duration_minutes = 0 ∧
    (0 ≤ view_count → 0 ≤ like_count → 0 ≤ comment_count → 0 ≤ duration_minutes →
      0 ≤ calculate_engagement_score view_count like_count comment_count duration_minutes ∧
      calculate_engagement_score view_count like_count comment_count duration_minutes ≤ 10) ∧
    (view_count ≠ 0 →
      calculate_engagement_score view_count like_count comment_count duration_minutes =
        round2 (min (((like_count : ℚ) / (view_count : ℚ) * 100 * 0.6 +
            (comment_count : ℚ) / (view_count : ℚ) * 100 * 0.4) *
          (1 + min ((duration_minutes : ℚ) / 60) 3 * 0.1)) 10)) := by
  refine ⟨by simp [calculate_engagement_score], ?_, ?_⟩
  · intro hv hl hc hd
    by_cases h0 : view_count = 0
    · subst h0
      simp [calculate_engagement_score]
    · have hvpos : (0 : ℚ) < (view_count : ℚ) := by
        exact_mod_cast lt_of_le_of_ne hv (Ne.symm h0)
      simp only [calculate_engagement_score, if_neg h0]
      have hmin0 : (0 : ℚ) ≤ min ((duration_minutes : ℚ) / 60) 3 :=
        le_min (by positivity) (by norm_num)
      have h1 : (0 : ℚ) ≤ (like_count : ℚ) / (view_count : ℚ) :=
        div_nonneg (by exact_mod_cast hl) (le_of_lt hvpos)
      have h2 : (0 : ℚ) ≤ (comment_count : ℚ) / (view_count : ℚ) :=
        div_nonneg (by exact_mod_cast hc) (le_of_lt hvpos)
      have hs0 : (0 : ℚ) ≤ ((like_count : ℚ) / (view_count : ℚ) * 100 * 0.6 +
          (comment_count : ℚ) / (view_count : ℚ) * 100 * 0.4) *
          (1 + min ((duration_minutes : ℚ) / 60) 3 * 0.1) := by
        apply mul_nonneg
        · linarith
        · linarith
      exact round2_bounds _ (le_min hs0 (by norm_num)) (min_le_right _ _)
  · intro h0
    simp only [calculate_engagement_score, if_neg h0]

/-- Witness for C4 at concrete non-negative inputs. -/
theorem C4_engagement_score_witness :
    (0 : ℤ) ≤ 1000 ∧
    0 ≤ calculate_engagement_score 1000 100 50 120 ∧
    calculate_engagement_score 1000 100 50 120 ≤ 10 ∧
    calculate_engagement_score 1000 100 50 120 =
      round2 (min ((((100 : ℤ) : ℚ) / ((1000 : ℤ) : ℚ) * 100 * 0.6 +
          ((50 : ℤ) : ℚ) / ((1000 : ℤ) : ℚ) * 100 * 0.4) *
        (1 + min (((120 : ℤ) : ℚ) / 60) 3 * 0.1)) 10) := by
  have h := C4_engagement_score 1000 100 50 120
  have h2 := h.2.1 (by norm_num) (by norm_num) (by norm_num) (by norm_num)
  exact ⟨by norm_num, h2.1, h2.2, h.2.2 (by norm_num)⟩

/-! ## C5: duration parsing -/

/-- Counterexample to C5 as literally stated: "PT1H2H" is malformed as a
PT#H#M#S duration, yet the parser does not return 0 — re.match accepts the
longest matching prefix "PT1H" (minute and second groups match empty) and
the code returns 60. -/
theorem C5_counterexample : parse_duration_to_minutes "PT1H2H" ≠ 0 := by
  decide

/-- Claim C5 (amended): "PT1H30M" parses to 90 minutes, the empty string to
0, "PT45S" to 0 (seconds truncate); any input not matching the anchored
pattern — equivalently, any input not starting with "PT" — parses to 0, and
the parser is a total function (it never raises).  An input that does
start with "PT" is parsed by the longest matching prefix of
PT(#H)?(#M)?(#S)?, silently ignoring trailing garbage instead of
returning 0: "PT1H2H" yields 60 and "PT30M7" yields 30. -/
theorem C5_duration_parsing :
    parse_duration_to_minutes "PT1H30M" = 90 ∧
    parse_duration_to_minutes "" = 0 ∧
    parse_duration_to_minutes "PT45S" = 0 ∧
    parse_duration_to_minutes "PT1H2H" = 60 ∧
    parse_duration_to_minutes "PT30M7" = 30 ∧
    ∀ s : String, s.data.take 2 ≠ ['P', 'T'] → parse_duration_to_minutes s = 0 := by
  refine ⟨by decide, by decide, by decide, by decide, by decide, ?_⟩
  intro s h
  unfold parse_duration_to_minutes
  split
  · next rest heq => exact absurd (by rw [heq]; rfl) h
  · rfl

/-- Witness for C5 at a concrete input outside the anchored pattern. -/
theorem C5_duration_parsing_witness :
    "P1D".data.take 2 ≠ ['P', 'T'] ∧ parse_duration_to_minutes "P1D" = 0 :=
  ⟨by decide, C5_duration_parsing.2.2.2.2.2 "P1D" (by decide)⟩

/-! ## C2 and C8 and C10: the cache store -/

/-- After cache_stream, the lookup by the stored video_id finds a row whose
timestamps are refreshed and whose data is exactly the stored record. -/
theorem cache_stream_find_spec (s : CacheState) (st : StreamWithDetails) (t : ℤ) :
    ∃ row, (cache_stream s st t).find? (fun r => r.video_id == st.video_id) = some row ∧
      row.updated_at = t ∧ row.video_id = st.video_id ∧
      cacheToStreamDetails row = normalizeCached st := by
  unfold cache_stream
  by_cases h : s.any (fun r => r.video_id == st.video_id)
  · rw [if_pos h]
    obtain ⟨r0, hr0mem, hr0p⟩ := List.any_eq_true.mp h
    have hsome : (s.find? (fun r => r.video_id == st.video_id)).isSome := by
      rw [List.find?_isSome]
      exact ⟨r0, hr0mem, hr0p⟩
    obtain ⟨row0, hrow0⟩ := Option.isSome_iff_exists.mp hsome
    have hp0 := List.find?_some hrow0
    have hv0 : row0.video_id = st.video_id := by simpa using hp0
    refine ⟨updateRow row0 st t, ?_, rfl, hv0, ?_⟩
    · rw [find?_map_pres _ _ _
        (upd_pres_pred st.video_id st.video_id (fun r => updateRow r st t) (fun r => rfl)), hrow0]
      simp only [Option.map_some']
      rw [if_pos hp0]
    · simp [cacheToStreamDetails, updateRow, normalizeCached, hv0]
  · rw [if_neg h]
    have hn : s.find? (fun r => r.video_id == st.video_id) = none := by
      rw [List.find?_eq_none]
      intro x hx hpx
      exact h (List.any_eq_true.mpr ⟨x, hx, hpx⟩)
    refine ⟨mkCacheRow st t, ?_, rfl, rfl, ?_⟩
    · rw [find?_append_none _ _ _ hn]
      simp [List.find?, mkCacheRow]
    · simp [cacheToStreamDetails, mkCacheRow, normalizeCached]

/-- Claim C2 (amended): a get issued within the freshness window after a put
returns the cached record with absent tags/keywords/highlights normalized
to empty lists; a get issued after the window elapsed returns a miss; and
every hit sets the row's last_accessed to the current time. -/
theorem C2_cache_freshness (s : CacheState) (st : StreamWithDetails) (t₁ t₂ : ℤ) :
    (t₂ - t₁ ≤ freshnessWindow →
      (get_cached_stream (cache_stream s st t₁) st.video_id t₂).1 =
        some (normalizeCached st)) ∧
    (freshnessWindow < t₂ - t₁ →
      (get_cached_stream (cache_stream s st t₁) st.video_id t₂).1 = none) ∧
    (∀ (s₀ : CacheState) (vid : String) (t : ℤ) (r : StreamWithDetails),
      (get_cached_stream s₀ vid t).1 = some r →
      ∀ row ∈ (get_cached_stream s₀ vid t).2, row.video_id = vid →
        row.last_accessed = t) := by
  obtain ⟨row, hfind, hupd, _, hconv⟩ := cache_stream_find_spec s st t₁
  refine ⟨?_, ?_, ?_⟩
  · intro hfresh
    simp only [get_cached_stream, hfind, hupd]
    rw [if_neg (by omega)]
    simp [hconv]
  · intro hstale
    simp only [get_cached_stream, hfind, hupd]
    rw [if_pos (by omega)]
  · intro s₀ vid t r hr row hrow hvid
    simp only [get_cached_stream] at hr hrow
    cases hf : s₀.find? (fun x => x.video_id == vid) with
    | none => rw [hf] at hr; simp at hr
    | some row0 =>
      rw [hf] at hr hrow
      simp only at hr hrow
      by_cases hst : freshnessWindow < t - row0.updated_at
      · rw [if_pos hst] at hr; simp at hr
      · rw [if_neg hst] at hrow
        simp only at hrow
        obtain ⟨r1, _, hr1⟩ := List.mem_map.mp hrow
        by_cases hp : (r1.video_id == vid) = true
        · rw [if_pos hp] at hr1
          rw [← hr1]
        · rw [if_neg hp] at hr1
          subst hr1
          exact absurd (by simp [hvid]) hp

/-- Witness for C2: put then immediate get on the empty cache. -/
theorem C2_cache_freshness_witness :
    ((0 : ℤ) - 0 ≤ freshnessWindow) ∧
    (get_cached_stream
      (cache_stream []
        { date := "2024-01-01", url := "https://youtu.be/abcdefghijk",
          video_id := "abcdefghijk", tags := some ["t"] } 0)
      "abcdefghijk" 0).1 =
    some (normalizeCached
      { date := "2024-01-01", url := "https://youtu.be/abcdefghijk",
        video_id := "abcdefghijk", tags := some ["t"] }) :=
  ⟨by decide,
    (C2_cache_freshness []
      { date := "2024-01-01", url := "https://youtu.be/abcdefghijk",
        video_id := "abcdefghijk", tags := some ["t"] } 0 0).1 (by decide)⟩

/-- Counterexample to C2 as literally stated: a record with highlights,
tags, keywords all absent is not returned unchanged by get after put; the
JSON round trip (json.dumps(None or []) and the truthiness test in
_cache_to_stream_details) turns the absent list fields into empty lists. -/
theorem C2_counterexample :
    (get_cached_stream
      (cache_stream []
        { date := "2024-01-01", url := "https://youtu.be/abcdefghijk",
          video_id := "abcdefghijk" } 0)
      "abcdefghijk" 0).1 ≠
    some { date := "2024-01-01", url := "https://youtu.be/abcdefghijk",
           video_id := "abcdefghijk" } := by
  decide

/-- Any row carrying the stored video_id after a put holds exactly the data
cache_stream wrote (the core of last-writer-wins). -/
theorem cache_stream_lww (s : CacheState) (st : StreamWithDetails) (t : ℤ) :
    ∀ r ∈ cache_stream s st t, r.video_id = st.video_id → rowMatchesStream r st := by
  intro r hr hv
  unfold cache_stream at hr
  by_cases h : s.any (fun x => x.video_id == st.video_id)
  · rw [if_pos h] at hr
    obtain ⟨r0, _, hr0⟩ := List.mem_map.mp hr
    by_cases hp : (r0.video_id == st.video_id) = true
    · rw [if_pos hp] at hr0
      rw [← hr0]
      unfold updateRow rowMatchesStream
      exact ⟨rfl, rfl, rfl, rfl, rfl, rfl, rfl, rfl, rfl, rfl, rfl, rfl, rfl, rfl, rfl⟩
    · rw [if_neg hp] at hr0
      subst hr0
      exact absurd (by simp [hv]) hp
  · rw [if_neg h] at hr
    rcases List.mem_append.mp hr with hmem | hmem
    · exact absurd (List.any_eq_true.mpr ⟨r, hmem, by simp [hv]⟩) h
    · have : r = mkCacheRow st t := by simpa using hmem
      subst this
      unfold mkCacheRow rowMatchesStream
      exact ⟨rfl, rfl, rfl, rfl, rfl, rfl, rfl, rfl, rfl, rfl, rfl, rfl, rfl, rfl, rfl⟩

/-- After a put, the stored video_id is present. -/
theorem cache_stream_any_self (s : CacheState) (st : StreamWithDetails) (t : ℤ) :
    (cache_stream s st t).any (fun r => r.video_id == st.video_id) = true := by
  unfold cache_stream
  by_cases h : s.any (fun x => x.video_id == st.video_id)
  · rw [if_pos h]
    rw [any_map_pres _ _ _ (upd_pres_pred st.video_id st.video_id (fun r => updateRow r st t) (fun r => rfl))]
    exact h
  · rw [if_neg h]
    refine List.any_eq_true.mpr ⟨mkCacheRow st t, by simp, by simp [mkCacheRow]⟩

/-- Claim C8: put is idempotent up to the updated_at/last_accessed
timestamps; put after put for the same video_id leaves every row of that
video_id holding the latest written values; and put never duplicates a
row (key uniqueness is preserved). -/
theorem C8_put_idempotent (s : CacheState) (st : StreamWithDetails) (t₁ t₂ : ℤ) :
    ((cache_stream (cache_stream s st t₁) st t₂).map eraseTimestamps =
      (cache_stream s st t₁).map eraseTimestamps) ∧
    (∀ (st₁ st₂ : StreamWithDetails) (t₃ t₄ : ℤ), st₁.video_id = st₂.video_id →
      ∀ r ∈ cache_stream (cache_stream s st₁ t₃) st₂ t₄,
        r.video_id = st₂.video_id → rowMatchesStream r st₂) ∧
    (keyUnique s → keyUnique (cache_stream s st t₁)) := by
  refine ⟨?_, ?_, ?_⟩
  · have hany := cache_stream_any_self s st t₁
    conv =>
      lhs
      rw [cache_stream, if_pos hany]
    rw [List.map_map]
    apply List.map_congr_left
    intro r hr
    by_cases hp : (r.video_id == st.video_id) = true
    · obtain ⟨h1, h2, h3, h4, h5, h6, h7, h8, h9, h10, h11, h12, h13, h14, h15⟩ :=
        cache_stream_lww s st t₁ r hr (by simpa using hp)
      simp only [Function.comp_apply, if_pos hp]
      simp [eraseTimestamps, updateRow, h1, h2, h3, h4, h5, h6, h7, h8, h9, h10,
        h11, h12, h13, h14, h15]
    · simp only [Function.comp_apply, if_neg hp]
  · intro st₁ st₂ t₃ t₄ _ r hr hv
    exact cache_stream_lww _ st₂ t₄ r hr hv
  · intro hu
    unfold cache_stream
    by_cases h : s.any (fun x => x.video_id == st.video_id)
    · rw [if_pos h]
      unfold keyUnique at hu ⊢
      rw [List.pairwise_map]
      apply hu.imp_of_mem
      intro a b _ _ hab
      by_cases hpa : (a.video_id == st.video_id) = true <;>
        by_cases hpb : (b.video_id == st.video_id) = true <;>
          simp [hpa, hpb, updateRow, hab]
    · rw [if_neg h]
      unfold keyUnique at hu ⊢
      rw [List.pairwise_append]
      refine ⟨hu, by simp, ?_⟩
      intro a ha b hb
      have : b = mkCacheRow st t₁ := by simpa using hb
      subst this
      intro heq
      exact absurd (List.any_eq_true.mpr ⟨a, ha, by simp [heq, mkCacheRow]⟩) h

/-- Witness for C8 on a concrete one-row cache. -/
theorem C8_put_idempotent_witness :
    keyUnique [] ∧
    keyUnique (cache_stream []
      { date := "2024-01-01", url := "https://youtu.be/abcdefghijk",
        video_id := "abcdefghijk" } 0) :=
  ⟨List.Pairwise.nil,
    (C8_put_idempotent []
      { date := "2024-01-01", url := "https://youtu.be/abcdefghijk",
        video_id := "abcdefghijk" } 0 0).2.2 List.Pairwise.nil⟩

/-- Claim C10: a get modifies nothing but last_accessed — the rows with
last_accessed erased are unchanged — and in particular it never changes
updated_at, so the freshness of every record at every later time is
exactly what it was before the read. -/
theorem C10_get_frame_effect (s : CacheState) (vid : String) (t : ℤ) :
    ((get_cached_stream s vid t).2.map eraseLastAccessed = s.map eraseLastAccessed) ∧
    (∀ (vid' : String) (t' : ℤ),
      lookupFresh (get_cached_stream s vid t).2 vid' t' = lookupFresh s vid' t') := by
  have hstate : (get_cached_stream s vid t).2 = s ∨
      (get_cached_stream s vid t).2 =
        s.map (fun r => if r.video_id == vid then { r with last_accessed := t } else r) := by
    cases hf : s.find? (fun r => r.video_id == vid) with
    | none =>
      refine Or.inl ?_
      simp only [get_cached_stream, hf]
    | some row =>
      by_cases hst : freshnessWindow < t - row.updated_at
      · refine Or.inl ?_
        simp only [get_cached_stream, hf]
        rw [if_pos hst]
      · refine Or.inr ?_
        simp only [get_cached_stream, hf]
        rw [if_neg hst]
  rcases hstate with hstate | hstate <;> rw [hstate]
  · exact ⟨rfl, fun _ _ => rfl⟩
  · constructor
    · rw [List.map_map]
      apply List.map_congr_left
      intro r _
      by_cases hp : (r.video_id == vid) = true
      · simp only [Function.comp_apply, if_pos hp]
        simp [eraseLastAccessed]
      · simp only [Function.comp_apply, if_neg hp]
    · intro vid' t'
      unfold lookupFresh
      rw [find?_map_pres _ _ _
        (upd_pres_pred vid vid' (fun r => { r with last_accessed := t }) (fun r => rfl))]
      cases hf : s.find? (fun r => r.video_id == vid') with
      | none => rfl
      | some row =>
        simp only [Option.map_some']
        by_cases hp : (row.video_id == vid) = true
        · rw [if_pos hp]
        · rw [if_neg hp]

/-! ## C3: the identifier extractor -/

theorem matchesAt_append_self (xs ys : List Char) : matchesAt xs (xs ++ ys) = true := by
  induction xs with
  | nil => rfl
  | cons c cs ih => simp [matchesAt, ih]

theorem matchesAt_all {p : Char → Bool} :
    ∀ (xs ys : List Char), matchesAt xs ys = true → ys.all p = true → xs.all p = true
  | [], _, _, _ => rfl
  | x :: xs, [], h, _ => by simp [matchesAt] at h
  | x :: xs, y :: ys, h, hall => by
    simp only [matchesAt, Bool.and_eq_true, beq_iff_eq] at h
    simp only [List.all_cons, Bool.and_eq_true] at hall ⊢
    exact ⟨h.1 ▸ hall.1, matchesAt_all xs ys h.2 hall.2⟩

theorem matchPrefixId_of_class (pre l : List Char) (hp : pre.all isIdChar = false)
    (hl : l.all isIdChar = true) : matchPrefixId pre l = none := by
  unfold matchPrefixId
  by_cases h : matchesAt pre l = true
  · rw [matchesAt_all pre l h hl] at hp
    exact absurd hp (by simp)
  · rw [if_neg (by simpa using h)]

theorem tryAlts_eq_none (pres : List (List Char)) (l : List Char)
    (h : ∀ p ∈ pres, matchPrefixId p l = none) : tryAlts pres l = none := by
  induction pres with
  | nil => rfl
  | cons p ps ih =>
    simp only [tryAlts, h p (by simp)]
    exact ih fun q hq => h q (List.mem_cons_of_mem p hq)

theorem searchCapture_skip (pres : List (List Char)) (xs ys : List Char)
    (h : ∀ i < xs.length, tryAlts pres (xs.drop i ++ ys) = none) :
    searchCapture pres (xs ++ ys) = searchCapture pres ys := by
  induction xs with
  | nil => rfl
  | cons c cs ih =>
    have h0 : tryAlts pres (c :: (cs ++ ys)) = none := by
      have := h 0 (by simp)
      simpa using this
    rw [List.cons_append]
    simp only [searchCapture, h0]
    exact ih fun i hi => by
      have := h (i + 1) (by simp; omega)
      simpa [List.drop_succ_cons] using this

theorem searchCapture_of_none (pres : List (List Char)) (l : List Char)
    (h : ∀ i < l.length, tryAlts pres (l.drop i) = none)
    (h0 : tryAlts pres [] = none) : searchCapture pres l = none := by
  induction l with
  | nil => exact h0
  | cons c cs ih =>
    have hc : tryAlts pres (c :: cs) = none := by simpa using h 0 (by simp)
    simp only [searchCapture, hc]
    exact ih fun i hi => by
      have := h (i + 1) (by simp; omega)
      simpa [List.drop_succ_cons] using this

theorem searchCapture_pos (pres : List (List Char)) (l : List Char) (v : List Char)
    (h : tryAlts pres l = some v) : searchCapture pres l = some v := by
  cases l with
  | nil => simpa [searchCapture] using h
  | cons c cs => simp [searchCapture, h]

theorem searchCapture_of_class (pres : List (List Char))
    (hpres : ∀ p ∈ pres, p.all isIdChar = false) (l : List Char)
    (hl : l.all isIdChar = true) : searchCapture pres l = none := by
  apply searchCapture_of_none
  · intro i _
    apply tryAlts_eq_none
    intro p hp
    apply matchPrefixId_of_class p _ (hpres p hp)
    rw [List.all_eq_true] at hl ⊢
    exact fun c hc => hl c (List.mem_of_mem_drop hc)
  · apply tryAlts_eq_none
    intro p hp
    have hfalse := hpres p hp
    cases p with
    | nil => simp at hfalse
    | cons a as =>
      unfold matchPrefixId
      rw [if_neg (by simp [matchesAt])]

theorem matchPrefixId_self (pre idl : List Char) (hlen : idl.length = 11)
    (hall : idl.all isIdChar = true) : matchPrefixId pre (pre ++ idl) = some idl := by
  unfold matchPrefixId
  rw [if_pos (by rw [matchesAt_append_self])]
  have hdrop : (pre ++ idl).drop pre.length = idl := List.drop_left pre idl
  have htake : idl.take 11 = idl := by
    rw [← hlen]
    exact List.take_length idl
  rw [hdrop, if_pos (by rw [htake]; exact ⟨by omega, hall⟩)]
  rw [htake]

/-- Claim C3: every canonical watch URL, short-link URL and embed URL built
from an 11-character identifier extracts to exactly that identifier, and a
URL in which no pattern matches anywhere extracts to the empty string (the
function is total: it never raises). -/
theorem C3_identifier_extractor (id : String)
    (hlen : id.data.length = 11) (hall : id.data.all isIdChar = true) :
    extract_video_id_from_url ("https://www.youtube.com/watch?v=" ++ id) = id ∧
    extract_video_id_from_url ("https://youtu.be/" ++ id) = id ∧
    extract_video_id_from_url ("https://www.youtube.com/embed/" ++ id) = id ∧
    ∀ url : String,
      (∀ pre ∈ [watchPre, shortPre, embedPre, vPre],
        ∀ i < url.data.length, matchPrefixId pre (url.data.drop i) = none) →
      extract_video_id_from_url url = "" := by
  refine ⟨?_, ?_, ?_, ?_⟩
  · unfold extract_video_id_from_url
    have hdata : ("https://www.youtube.com/watch?v=" ++ id).data =
        "https://www.".data ++ (watchPre ++ id.data) := rfl
    rw [hdata, searchCapture_skip _ _ _ (by
      intro i hi
      rw [show ("https://www.".data).length = 12 from rfl] at hi
      interval_cases i <;> rfl)]
    rw [searchCapture_pos _ _ id.data (by
      simp only [tryAlts, matchPrefixId_self watchPre id.data hlen hall])]
  · unfold extract_video_id_from_url
    have hdata : ("https://youtu.be/" ++ id).data =
        "https://".data ++ (shortPre ++ id.data) := rfl
    rw [hdata, searchCapture_skip _ _ _ (by
      intro i hi
      rw [show ("https://".data).length = 8 from rfl] at hi
      interval_cases i <;> rfl)]
    have hwatch : matchPrefixId watchPre (shortPre ++ id.data) = none := rfl
    rw [searchCapture_pos _ _ id.data (by
      simp only [tryAlts, hwatch, matchPrefixId_self shortPre id.data hlen hall])]
  · unfold extract_video_id_from_url
    have hdata : ("https://www.youtube.com/embed/" ++ id).data =
        "https://www.".data ++ (embedPre ++ id.data) := rfl
    have hpat1 : searchCapture [watchPre, shortPre]
        ("https://www.youtube.com/embed/" ++ id).data = none := by
      rw [hdata, ← List.append_assoc]
      rw [searchCapture_skip _ ("https://www.".data ++ embedPre) id.data (by
        intro i hi
        rw [show ("https://www.".data ++ embedPre).length = 30 from rfl] at hi
        interval_cases i <;> rfl)]
      exact searchCapture_of_class _ (by intro p hp; fin_cases hp <;> rfl) _ hall
    rw [hpat1]
    rw [hdata, searchCapture_skip _ _ _ (by
      intro i hi
      rw [show ("https://www.".data).length = 12 from rfl] at hi
      interval_cases i <;> rfl)]
    rw [searchCapture_pos _ _ id.data (by
      simp only [tryAlts, matchPrefixId_self embedPre id.data hlen hall])]
  · intro url h
    unfold extract_video_id_from_url
    have hnone : ∀ pres : List (List Char),
        (∀ p ∈ pres, p ∈ [watchPre, shortPre, embedPre, vPre]) →
        searchCapture pres url.data = none := by
      intro pres hsub
      apply searchCapture_of_none
      · intro i hi
        exact tryAlts_eq_none _ _ fun p hp => h p (hsub p hp) i hi
      · apply tryAlts_eq_none
        intro p hp
        have hmem : p ∈ [watchPre, shortPre, embedPre, vPre] := hsub p hp
        fin_cases hmem <;> rfl
    rw [hnone [watchPre, shortPre] (by intro p hp; fin_cases hp <;> simp)]
    rw [hnone [embedPre] (by intro p hp; fin_cases hp; simp)]
    rw [hnone [vPre] (by intro p hp; fin_cases hp; simp)]

/-- Witness for C3: a concrete identifier and a concrete non-matching URL. -/
theorem C3_identifier_extractor_witness :
    extract_video_id_from_url ("https://www.youtube.com/watch?v=" ++ "dQw4w9WgXcQ") =
      "dQw4w9WgXcQ" ∧
    extract_video_id_from_url "https://example.com/page" = "" :=
  ⟨(C3_identifier_extractor "dQw4w9WgXcQ" (by decide) (by decide)).1,
   (C3_identifier_extractor "dQw4w9WgXcQ" (by decide) (by decide)).2.2.2
     "https://example.com/page" (by decide)⟩

/-! ## C7: highlight extraction -/

theorem goHighlights_length :
    ∀ (cs acc : List String), acc.length < 3 → (goHighlights cs acc).length ≤ 3 := by
  intro cs
  induction cs with
  | nil =>
    intro acc h
    simp only [goHighlights]
    omega
  | cons c rest ih =>
    intro acc h
    simp only [goHighlights]
    split_ifs with h1 h2 h3
    · simp only [List.length_append, List.length_singleton]
      simp only [List.length_append, List.length_singleton] at h3
      omega
    · apply ih
      simp only [List.length_append, List.length_singleton] at h3 ⊢
      omega
    · exact ih acc h
    · exact ih acc h

theorem goHighlights_mem :
    ∀ (cs acc : List String), ∀ x ∈ goHighlights cs acc, x ∈ acc ∨ x.length ≤ 50 := by
  intro cs
  induction cs with
  | nil =>
    intro acc x hx
    simp only [goHighlights] at hx
    exact Or.inl hx
  | cons c rest ih =>
    intro acc x hx
    simp only [goHighlights] at hx
    have hclean : (String.mk ((pyStrip c.data).take 50)).length ≤ 50 := by
      show ((pyStrip c.data).take 50).length ≤ 50
      rw [List.length_take]
      omega
    split_ifs at hx with h1 h2 h3
    · rcases List.mem_append.mp hx with hmem | hmem
      · exact Or.inl hmem
      · right
        rw [List.mem_singleton.mp hmem]
        exact hclean
    · rcases ih _ x hx with hmem | hlen
      · rcases List.mem_append.mp hmem with hmem' | hmem'
        · exact Or.inl hmem'
        · right
          rw [List.mem_singleton.mp hmem']
          exact hclean
      · exact Or.inr hlen
    · exact ih acc x hx
    · exact ih acc x hx

theorem fallbackHighlights_spec (title : String) :
    fallbackHighlights title ≠ [] ∧ (fallbackHighlights title).length ≤ 3 ∧
    ∀ x ∈ fallbackHighlights title, x.length ≤ 50 := by
  have hcases : fallbackHighlights title = ["🎮 게임 스트리밍", "💬 시청자와 소통"] ∨
      fallbackHighlights title = ["🎮 게임 스트리밍"] ∨
      fallbackHighlights title = ["💬 시청자와 소통"] ∨
      fallbackHighlights title = ["📺 라이브 방송"] := by
    simp only [fallbackHighlights]
    split_ifs <;> simp_all
  rcases hcases with h | h | h | h <;> rw [h] <;> exact ⟨by decide, by decide, by decide⟩

/-- Counterexample to C7 as literally stated: for an empty comments list the
source returns [] before any fallback is considered, so the result is not
always non-empty. -/
theorem C7_counterexample :
    extract_highlights_from_comments [] "게임 방송" = [] := by
  decide

/-- Claim C7 (amended): for every NON-EMPTY list of comments, highlight
extraction (which scans at most the first 20 comments, collects at most 3
distinct comments truncated to 50 characters, and otherwise falls back to
title-keyword or generic highlights) returns a non-empty list of at most 3
highlights, each at most 50 characters; for the empty comments list the
source returns [] instead. -/
theorem C7_highlights (comments : List String) (title : String)
    (h : comments ≠ []) :
    extract_highlights_from_comments comments title ≠ [] ∧
    (extract_highlights_from_comments comments title).length ≤ 3 ∧
    ∀ x ∈ extract_highlights_from_comments comments title, x.length ≤ 50 := by
  unfold extract_highlights_from_comments
  rw [if_neg h]
  by_cases hs : goHighlights (comments.take 20) [] = []
  · simp only [hs, if_pos]
    simpa using fallbackHighlights_spec title
  · simp only [if_neg hs]
    refine ⟨hs, goHighlights_length _ [] (by simp), ?_⟩
    intro x hx
    rcases goHighlights_mem _ [] x hx with hmem | hlen
    · exact absurd hmem (List.not_mem_nil x)
    · exact hlen

/-- Witness for C7 on a concrete non-empty comment list. -/
theorem C7_highlights_witness :
    (["대박이다!!"] : List String) ≠ [] ∧
    extract_highlights_from_comments ["대박이다!!"] "x" ≠ [] ∧
    (extract_highlights_from_comments ["대박이다!!"] "x").length ≤ 3 :=
  ⟨by decide,
   (C7_highlights ["대박이다!!"] "x" (by decide)).1,
   (C7_highlights ["대박이다!!"] "x" (by decide)).2.1⟩

/-! ## C6: keyword extraction -/

theorem counterKeysAux_mem :
    ∀ (l seen : List String) (x : String), x ∈ counterKeysAux l seen → x ∈ l ∧ x ∉ seen := by
  intro l
  induction l with
  | nil =>
    intro seen x hx
    simp [counterKeysAux] at hx
  | cons w ws ih =>
    intro seen x hx
    simp only [counterKeysAux] at hx
    split_ifs at hx with hc
    · obtain ⟨h1, h2⟩ := ih _ x hx
      exact ⟨List.mem_cons_of_mem w h1, h2⟩
    · rcases List.mem_cons.mp hx with rfl | hx'
      · exact ⟨List.mem_cons_self _ _, fun hmem => hc (List.elem_iff.mpr hmem)⟩
      · obtain ⟨h1, h2⟩ := ih _ x hx'
        exact ⟨List.mem_cons_of_mem w h1, fun hmem => h2 (List.mem_append_left _ hmem)⟩

theorem counterKeysAux_nodup : ∀ (l seen : List String), (counterKeysAux l seen).Nodup := by
  intro l
  induction l with
  | nil => intro seen; simp [counterKeysAux]
  | cons w ws ih =>
    intro seen
    simp only [counterKeysAux]
    split_ifs with hc
    · exact ih _
    · refine List.nodup_cons.mpr ⟨?_, ih _⟩
      intro hmem
      have := (counterKeysAux_mem _ _ _ hmem).2
      exact this (List.mem_append_right _ (List.mem_singleton_self w))

theorem counterKeysAux_complete :
    ∀ (l seen : List String) (x : String), x ∈ l → x ∈ counterKeysAux l seen ∨ x ∈ seen := by
  intro l
  induction l with
  | nil => intro seen x hx; simp at hx
  | cons w ws ih =>
    intro seen x hx
    simp only [counterKeysAux]
    split_ifs with hc
    · rcases List.mem_cons.mp hx with rfl | hx'
      · exact Or.inr (List.elem_iff.mp hc)
      · exact ih seen x hx'
    · rcases List.mem_cons.mp hx with rfl | hx'
      · exact Or.inl (List.mem_cons_self _ _)
      · rcases ih (seen ++ [w]) x hx' with hmem | hmem
        · exact Or.inl (List.mem_cons_of_mem w hmem)
        · rcases List.mem_append.mp hmem with hmem' | hmem'
          · exact Or.inr hmem'
          · exact Or.inl (by rw [List.mem_singleton.mp hmem']; exact List.mem_cons_self _ _)

theorem counterKeys_complete (l : List String) : ∀ x ∈ l, x ∈ counterKeys l := by
  intro x hx
  rcases counterKeysAux_complete l [] x hx with h | h
  · exact h
  · simp at h

theorem counterKeys_nodup (l : List String) : (counterKeys l).Nodup :=
  counterKeysAux_nodup l []

theorem counterKeys_subset (l : List String) : ∀ x ∈ counterKeys l, x ∈ l :=
  fun x hx => (counterKeysAux_mem l [] x hx).1

theorem indexOf_inj (l : List String) (a b : String) (ha : a ∈ l) (hb : b ∈ l)
    (h : l.indexOf a = l.indexOf b) : a = b := by
  have h1 : l.get ⟨l.indexOf a, List.indexOf_lt_length.2 ha⟩ = a := List.indexOf_get _
  have h2 : l.get ⟨l.indexOf b, List.indexOf_lt_length.2 hb⟩ = b := List.indexOf_get _
  rw [← h1, ← h2]
  congr 1
  exact Fin.ext h

/-- The ordering contract of Counter.most_common on the key/count/position
triples: at most n results, all drawn from the token stream, ordered by
strictly descending count with ties broken by first occurrence. -/
theorem mostCommon_spec (f : List String) (n : ℕ) :
    ((((((counterKeys f).map (fun w => (w, f.count w, f.indexOf w))).insertionSort
        kwLE).take n).map (fun p => p.1)).length ≤ n) ∧
    (∀ w ∈ ((((counterKeys f).map (fun w => (w, f.count w, f.indexOf w))).insertionSort
        kwLE).take n).map (fun p => p.1), w ∈ f) ∧
    (((((counterKeys f).map (fun w => (w, f.count w, f.indexOf w))).insertionSort
        kwLE).take n).map (fun p => p.1)).Pairwise (fun a b =>
      f.count b < f.count a ∨ (f.count a = f.count b ∧ f.indexOf a < f.indexOf b)) ∧
    (∀ v ∈ ((((counterKeys f).map (fun w => (w, f.count w, f.indexOf w))).insertionSort
        kwLE).take n).map (fun p => p.1),
      ∀ u ∈ f, u ∉ ((((counterKeys f).map
        (fun w => (w, f.count w, f.indexOf w))).insertionSort kwLE).take n).map
        (fun p => p.1) →
      f.count u < f.count v ∨ (f.count u = f.count v ∧ f.indexOf v < f.indexOf u)) := by
  set pairs := (counterKeys f).map (fun w => (w, f.count w, f.indexOf w)) with hpairs
  set S := pairs.insertionSort kwLE with hS
  have hperm : List.Perm S pairs := List.perm_insertionSort kwLE pairs
  have hsorted : S.Pairwise kwLE := List.sorted_insertionSort kwLE pairs
  have hSmem : ∀ p ∈ S, p.1 ∈ f ∧ p.2.1 = f.count p.1 ∧ p.2.2 = f.indexOf p.1 := by
    intro p hp
    have hp' : p ∈ pairs := hperm.mem_iff.mp hp
    obtain ⟨w, hw, rfl⟩ := List.mem_map.mp hp'
    exact ⟨counterKeys_subset f w hw, rfl, rfl⟩
  have hfstne : S.Pairwise (fun a b => a.1 ≠ b.1) := by
    have hpairsne : pairs.Pairwise (fun a b => a.1 ≠ b.1) :=
      List.pairwise_map.2 (counterKeys_nodup f)
    exact (List.Perm.pairwise_iff (fun h => Ne.symm h) hperm).2 hpairsne
  have hgood : S.Pairwise (fun a b : String × ℕ × ℕ =>
      f.count b.1 < f.count a.1 ∨
      (f.count a.1 = f.count b.1 ∧ f.indexOf a.1 < f.indexOf b.1)) := by
    refine (hsorted.and hfstne).imp_of_mem ?_
    intro a b ha hb hab
    obtain ⟨hale, hane⟩ := hab
    obtain ⟨haf, hac, hai⟩ := hSmem a ha
    obtain ⟨hbf, hbc, hbi⟩ := hSmem b hb
    unfold kwLE at hale
    rcases hale with hlt | ⟨heq, hle⟩
    · left
      rw [← hac, ← hbc]
      exact hlt
    · right
      refine ⟨by rw [← hac, ← hbc]; exact heq, ?_⟩
      rcases lt_or_eq_of_le hle with hlt | heqi
    -- strict on positions, using that distinct keys have distinct indexOf
      · rw [← hai, ← hbi]
        exact hlt
      · exact absurd (indexOf_inj f a.1 b.1 haf hbf (by rw [← hai, ← hbi]; exact heqi)) hane
  refine ⟨?_, ?_, ?_, ?_⟩
  · simp [List.length_take]
  · intro w hw
    obtain ⟨p, hp, rfl⟩ := List.mem_map.mp hw
    exact (hSmem p (List.mem_of_mem_take hp)).1
  · exact List.pairwise_map.2 (hgood.sublist (List.take_sublist n S))
  · intro v hv u hu hunot
    obtain ⟨p, hpT, rfl⟩ := List.mem_map.mp hv
    have hpS : p ∈ S := List.mem_of_mem_take hpT
    have huk : u ∈ counterKeys f := counterKeys_complete f u hu
    have hqS : (u, f.count u, f.indexOf u) ∈ S :=
      hperm.mem_iff.mpr (List.mem_map.mpr ⟨u, huk, rfl⟩)
    have hqdrop : (u, f.count u, f.indexOf u) ∈ S.drop n := by
      have hsplit : S.take n ++ S.drop n = S := List.take_append_drop n S
      rcases List.mem_append.mp (by rw [hsplit]; exact hqS) with hmem | hmem
      · exact absurd (List.mem_map.mpr ⟨_, hmem, rfl⟩) hunot
      · exact hmem
    have hsplitPW : (S.take n ++ S.drop n).Pairwise kwLE := by
      rw [List.take_append_drop]
      exact hsorted
    have hrel : kwLE p (u, f.count u, f.indexOf u) :=
      (List.pairwise_append.mp hsplitPW).2.2 p hpT _ hqdrop
    obtain ⟨hpf, hpc, hpi⟩ := hSmem p hpS
    have hne : p.1 ≠ u := fun heq => hunot (heq ▸ List.mem_map.mpr ⟨p, hpT, rfl⟩)
    unfold kwLE at hrel
    rcases hrel with hlt | ⟨heq, hle⟩
    · left
      rw [← hpc]
      exact hlt
    · right
      refine ⟨by rw [← hpc]; exact heq.symm, ?_⟩
      rcases lt_or_eq_of_le hle with hlt | heqi
      · rw [← hpi]
        exact hlt
      · exact absurd (indexOf_inj f p.1 u hpf hu (by rw [← hpi]; exact heqi)) hne

/-- Claim C6: extract_keywords_from_text returns at most N tokens, all drawn
from the filtered (length ≥ 2, lower-cased, stop-word-free) token stream,
ordered by strictly descending frequency with ties broken by first
occurrence; they are the top N (every filtered token left out ranks no
higher than any token returned); in particular a text with "game" five
times and "music" three times yields ["game", "music"]. -/
theorem C6_keyword_extraction (text : String) (n : ℕ) :
    ((extract_keywords_from_text text n).length ≤ n) ∧
    (∀ w ∈ extract_keywords_from_text text n, w ∈ filteredTokens text) ∧
    ((extract_keywords_from_text text n).Pairwise (fun a b =>
      (filteredTokens text).count b < (filteredTokens text).count a ∨
      ((filteredTokens text).count a = (filteredTokens text).count b ∧
        (filteredTokens text).indexOf a < (filteredTokens text).indexOf b))) ∧
    (∀ v ∈ extract_keywords_from_text text n,
      ∀ u ∈ filteredTokens text, u ∉ extract_keywords_from_text text n →
      (filteredTokens text).count u < (filteredTokens text).count v ∨
      ((filteredTokens text).count u = (filteredTokens text).count v ∧
        (filteredTokens text).indexOf v < (filteredTokens text).indexOf u)) ∧
    extract_keywords_from_text "game music game game music game music game" 2 =
      ["game", "music"] := by
  have h := mostCommon_spec (filteredTokens text) n
  exact ⟨h.1, h.2.1, h.2.2.1, h.2.2.2, by decide⟩

/-! ## C1 and C9: the enrichment orchestrator -/

theorem processSeq_length (w : ExternalWorld) (k : String) :
    ∀ (es : List LiveStreamEntry) (c : CacheState) (now : ℤ),
      (processSeq w k es c now).1.length = es.length := by
  intro es
  induction es with
  | nil => intro c now; rfl
  | cons e es ih =>
    intro c now
    simp only [processSeq, List.length_cons]
    rw [ih]

theorem processSeq_append (w : ExternalWorld) (k : String) :
    ∀ (xs ys : List LiveStreamEntry) (c : CacheState) (now : ℤ),
      processSeq w k (xs ++ ys) c now =
        ((processSeq w k xs c now).1 ++
          (processSeq w k ys (processSeq w k xs c now).2 now).1,
         (processSeq w k ys (processSeq w k xs c now).2 now).2) := by
  intro xs
  induction xs with
  | nil => intro ys c now; rfl
  | cons e es ih =>
    intro ys c now
    simp only [List.cons_append, processSeq, List.append_eq]
    rw [ih]

/-- Processing in sequential windows of 5 equals plain sequential
processing: the windowing neither drops, duplicates nor reorders entries. -/
theorem processInWindows_eq (w : ExternalWorld) (k : String) :
    ∀ (es : List LiveStreamEntry) (c : CacheState) (now : ℤ),
      processInWindows w k es c now = processSeq w k es c now := by
  intro es c now
  generalize hn : es.length = n
  induction n using Nat.strong_induction_on generalizing es c now with
  | _ n ih =>
    match es, hn with
    | [], _ => rfl
    | [e1], _ => rfl
    | [e1, e2], _ => rfl
    | [e1, e2, e3], _ => rfl
    | [e1, e2, e3, e4], _ => rfl
    | e1 :: e2 :: e3 :: e4 :: e5 :: rest, hn =>
      simp only [processInWindows]
      rw [ih rest.length (by simp only [List.length_cons] at hn; omega) rest _ now rfl]
      have hsplit : e1 :: e2 :: e3 :: e4 :: e5 :: rest =
          [e1, e2, e3, e4, e5] ++ rest := rfl
      conv_rhs => rw [hsplit, processSeq_append]

theorem get_cached_stream_video_id (s : CacheState) (vid : String) (now : ℤ)
    (r : StreamWithDetails) (s' : CacheState)
    (h : get_cached_stream s vid now = (some r, s')) : r.video_id = vid := by
  simp only [get_cached_stream] at h
  cases hf : s.find? (fun x => x.video_id == vid) with
  | none =>
    rw [hf] at h
    simp at h
  | some row =>
    rw [hf] at h
    simp only at h
    split_ifs at h with hst
    · simp at h
    · have hr : cacheToStreamDetails row = r := Option.some.inj (congrArg Prod.fst h)
      have hrow : row.video_id = vid := by simpa using List.find?_some hf
      rw [← hr]
      exact hrow

/-- Claim C1: the batched detail loop returns exactly one record per input
entry, in input order (windowed processing equals sequential processing);
and an entry whose metadata fetch raises still yields a degraded record
carrying its date, url and extracted video_id, leaving siblings and the
batch intact (every entry of the batch yields a record — per-entry failures
of the kinds named by the spec are absorbed inside get_stream_details). -/
theorem C1_batch_enrichment (w : ExternalWorld) (k : String)
    (entries : List LiveStreamEntry) (c : CacheState) (now : ℤ) :
    (processInWindows w k entries c now).1.length = entries.length ∧
    processInWindows w k entries c now = processSeq w k entries c now ∧
    (∀ (e : LiveStreamEntry) (c' : CacheState) (err : String),
      extract_video_id_from_url e.url ≠ "" →
      (get_cached_stream c' (extract_video_id_from_url e.url) now).1 = none →
      k ≠ "" →
      w.fetch (extract_video_id_from_url e.url) = Except.error err →
      (get_stream_details w k c' now e).1 =
        { date := e.date, url := e.url,
          video_id := extract_video_id_from_url e.url }) := by
  refine ⟨?_, processInWindows_eq w k entries c now, ?_⟩
  · rw [processInWindows_eq w k entries c now]
    exact processSeq_length w k entries c now
  · intro e c' err hvid hmiss hk hfetch
    simp only [get_stream_details]
    rw [if_neg hvid]
    cases hget : get_cached_stream c' (extract_video_id_from_url e.url) now with
    | mk o c2 =>
      rw [hget] at hmiss
      simp only at hmiss
      subst hmiss
      simp only [hget]
      rw [if_neg hk]
      simp only [hfetch]

/-- Witness for C1's per-entry degradation at a concrete failing fetch. -/
theorem C1_batch_enrichment_witness :
    extract_video_id_from_url "https://youtu.be/dQw4w9WgXcQ" ≠ "" ∧
    (get_stream_details
      { fetch := fun _ => Except.error "down",
        summarize := fun _ => Except.error "down", dummySummary := "d" }
      "key" [] 0 { date := "2024-01-01", url := "https://youtu.be/dQw4w9WgXcQ" }).1 =
      { date := "2024-01-01", url := "https://youtu.be/dQw4w9WgXcQ",
        video_id := extract_video_id_from_url "https://youtu.be/dQw4w9WgXcQ" } := by
  refine ⟨by decide, ?_⟩
  exact (C1_batch_enrichment
    { fetch := fun _ => Except.error "down",
      summarize := fun _ => Except.error "down", dummySummary := "d" }
    "key" [] [] 0).2.2
    { date := "2024-01-01", url := "https://youtu.be/dQw4w9WgXcQ" } [] "down"
    (by decide) (by decide) (by decide) rfl

/-- Claim C9: the record produced by per-entry enrichment always carries the
extracted video_id (so video_id is empty exactly when extraction failed);
and on extraction failure the returned record is the bare date/url record,
the cache is untouched and no external fetch is attempted — yet the record
is still returned. -/
theorem C9_video_id_invariant (w : ExternalWorld) (k : String) (c : CacheState)
    (now : ℤ) (e : LiveStreamEntry) :
    (get_stream_details w k c now e).1.video_id = extract_video_id_from_url e.url ∧
    (extract_video_id_from_url e.url = "" →
      (get_stream_details w k c now e).1 =
        { date := e.date, url := e.url, video_id := "" } ∧
      (get_stream_details w k c now e).2.1 = c ∧
      (get_stream_details w k c now e).2.2 = false) := by
  by_cases hvid : extract_video_id_from_url e.url = ""
  · refine ⟨by simp [get_stream_details, hvid], fun _ => ?_⟩
    refine ⟨?_, ?_, ?_⟩ <;> simp [get_stream_details, hvid]
  · refine ⟨?_, fun h => absurd h hvid⟩
    simp only [get_stream_details]
    rw [if_neg hvid]
    split
    · rename_i cached cache' hget
      exact get_cached_stream_video_id _ _ _ cached cache' hget
    · rename_i cache' hget
      by_cases hk : k = ""
      · rw [if_pos hk]
      · rw [if_neg hk]
        split
        · rfl
        · split <;> rfl

/-- Witness for C9 on a URL without a video identifier. -/
theorem C9_video_id_invariant_witness :
    extract_video_id_from_url "not-a-url" = "" ∧
    (get_stream_details
      { fetch := fun _ => Except.error "down",
        summarize := fun _ => Except.error "down", dummySummary := "d" }
      "key" [] 0 { date := "d1", url := "not-a-url" }).1 =
      { date := "d1", url := "not-a-url", video_id := "" } :=
  ⟨by decide,
   ((C9_video_id_invariant
      { fetch := fun _ => Except.error "down",
        summarize := fun _ => Except.error "down", dummySummary := "d" }
      "key" [] 0 { date := "d1", url := "not-a-url" }).2 (by decide)).1⟩

end Uha
